import Mathlib

/-!
# ftest / fclient: a shallow embedding

The Go packages `ftest` (fluent assertions with nil-aware equality) and
`ftest/fclient` (an in-process HTTP test client with a cookie jar) are
embedded as Lean functions.

* A Go `interface{}` value is a `Value`: the dynamic type is part of the
  constructor, the literal `nil` is `Value.nil`.
* A Go `string` is a byte sequence; it is a Lean `String` whose characters
  stand for the bytes.
* The reporter (`Fatalf`) aborts the current test: a check returns
  `Except String _`, the error being the message handed to `Fatalf`.
* Library functions the code calls (`reflect.DeepEqual`, `reflect.Value.IsNil`,
  `strings.Contains`, `recover`) are modelled after their Go documentation;
  `fmt` verbs for values and `encoding/json` are parameters.
* The repository pins no Go version. What `recover` yields after `panic(nil)`
  depends on the runtime, so the rule is a parameter (`panicnil`) of
  `PanicsSubstr`.
* A request holds its cookies in its `Cookie` header, as in net/http:
  `AddCookie` appends `name=value` to the header, which the default headers can
  set too, and `Cookies` parses the header.
* The reading of the request line by `httptest.NewRequest` is a parameter
  (`NetHTTP`): it gives the URL path for a target, or nothing when
  `httptest.NewRequest` panics; `NewRequest` then returns nothing.
* The cookie jar behind `http.CookieJar` (`net/http/cookiejar`) is not part of
  the sources; it is modelled from sections 3 and 4.3 of the specification.
* Time is a parameter: `Do` and `NewRequest` take the instant `now` at which
  they run, in seconds.
-/

namespace Ftest

deriving instance DecidableEq for Except

/-! ## Go values -/

/-- Go types, as far as `reflect.TypeOf` tells them apart. -/
inductive GoType
  | bool
  | int
  | int32
  | uint8
  | float64
  | string
  | slice (elem : GoType)
  | map (key elem : GoType)
  | ptr (elem : GoType)
  | iface
  | struct (name : String)
  deriving DecidableEq, Repr

/-- Map keys (Go compares them with `==`). -/
inductive Key
  | str (s : String)
  | int (n : Int)
  | bool (b : Bool)
  deriving DecidableEq, Repr

/-- A value held in an `interface{}`. `nil` is the nil interface (for which
`reflect.ValueOf` gives the zero `reflect.Value`); `nilSlice`, `nilMap` and
`nilPtr` are the typed nil references; `slice` and `map` are allocated
containers (possibly of length 0); a `float64` is given by its 64 bits. -/
inductive Value
  | nil
  | bool (b : Bool)
  | int (n : Int)
  | int32 (n : Int)
  | uint8 (n : Nat)
  | float64 (bits : Nat)
  | string (s : String)
  | nilSlice (elem : GoType)
  | slice (elem : GoType) (items : List Value)
  | nilMap (key elem : GoType)
  | map (key elem : GoType) (entries : List (Key × Value))
  | nilPtr (elem : GoType)
  | ptr (elem : GoType) (addr : Nat) (target : Value)
  | struct (name : String) (fields : List Value)

/-- The `reflect.TypeOf` of a value: `none` for the nil interface. -/
def Value.typeOf : Value → Option GoType
  | .nil => none
  | .bool _ => some .bool
  | .int _ => some .int
  | .int32 _ => some .int32
  | .uint8 _ => some .uint8
  | .float64 _ => some .float64
  | .string _ => some .string
  | .nilSlice t => some (.slice t)
  | .slice t _ => some (.slice t)
  | .nilMap k e => some (.map k e)
  | .map k e _ => some (.map k e)
  | .nilPtr t => some (.ptr t)
  | .ptr t _ _ => some (.ptr t)
  | .struct n _ => some (.struct n)

/-- The `reflect.Type.String` of a type. -/
def GoType.name : GoType → String
  | .bool => "bool"
  | .int => "int"
  | .int32 => "int32"
  | .uint8 => "uint8"
  | .float64 => "float64"
  | .string => "string"
  | .slice t => "[]" ++ t.name
  | .map k e => "map[" ++ k.name ++ "]" ++ e.name
  | .ptr t => "*" ++ t.name
  | .iface => "interface \x7b\x7d"
  | .struct n => n

/-- What `%v` prints for `reflect.TypeOf(v)`, and `%T` for `v`. -/
def typeString (v : Value) : String :=
  match v.typeOf with
  | none => "<nil>"
  | some t => t.name

/-- The `reflect.Value.IsValid` of `reflect.ValueOf(v)`. -/
def Value.IsValid : Value → Bool
  | .nil => false
  | _ => true

/-- The `reflect.Value.IsNil` of `reflect.ValueOf(v)`; `none` is a panic: the
method panics on the zero Value and on every kind that has no nil. -/
def Value.IsNil : Value → Option Bool
  | .nilSlice _ => some true
  | .nilMap _ _ => some true
  | .nilPtr _ => some true
  | .slice _ _ => some false
  | .map _ _ _ => some false
  | .ptr _ _ _ => some false
  | _ => none

/-- Go `isNil` of ftest.go: `ret = reflect.ValueOf(v).IsNil()` under a deferred
`recover()`, so a panic of `IsNil` leaves `ret` at its zero value `false`. -/
def isNil (v : Value) : Bool :=
  match v.IsNil with
  | some b => b
  | none => false

/-! ## reflect.DeepEqual -/

/-- A float64 is a NaN when its exponent bits are all ones and its fraction
is not zero. -/
def f64IsNaN (bits : Nat) : Bool :=
  (bits / 2 ^ 52) % 2 ^ 11 == 2 ^ 11 - 1 && bits % 2 ^ 52 != 0

/-- Go `==` on float64: a NaN equals nothing, the two zeros are equal. -/
def f64Eq (a b : Nat) : Bool :=
  !f64IsNaN a && !f64IsNaN b && (a == b || (a % 2 ^ 63 == 0 && b % 2 ^ 63 == 0))

/-- The `reflect.Value.MapIndex`: the element stored under a key. -/
def mapIndex (k : Key) : List (Key × Value) → Option Value
  | [] => none
  | (k', v) :: es => if k' = k then some v else mapIndex k es

mutual
/-- The `deepValueEqual` of package reflect, on values without cycles. -/
def deepValueEqual : Value → Value → Bool
  | .nil, .nil => true
  | .bool a, .bool b => a == b
  | .int a, .int b => a == b
  | .int32 a, .int32 b => a == b
  | .uint8 a, .uint8 b => a == b
  | .float64 a, .float64 b => f64Eq a b
  | .string a, .string b => a == b
  | .nilSlice t, .nilSlice u => t == u
  | .slice t xs, .slice u ys =>
      t == u && xs.length == ys.length && deepValuesEqual xs ys
  | .nilMap k e, .nilMap k' e' => k == k' && e == e'
  | .map k e a, .map k' e' b =>
      k == k' && e == e' && a.length == b.length && deepEntriesEqual a b
  | .nilPtr t, .nilPtr u => t == u
  | .ptr t p x, .ptr u q y => t == u && (p == q || deepValueEqual x y)
  | .struct n fs, .struct m gs => n == m && deepValuesEqual fs gs
  | _, _ => false
/-- Elements compared in order. -/
def deepValuesEqual : List Value → List Value → Bool
  | [], [] => true
  | x :: xs, y :: ys => deepValueEqual x y && deepValuesEqual xs ys
  | _, _ => false
/-- The map loop: every entry of the first map is looked up in the second. -/
def deepEntriesEqual : List (Key × Value) → List (Key × Value) → Bool
  | [], _ => true
  | (k, v) :: es, b =>
      (match mapIndex k b with
        | some w => deepValueEqual v w
        | none => false) && deepEntriesEqual es b
end

/-- The `reflect.DeepEqual(x, y)`: with a nil interface on a side it is
`x == y`; values of different types are never deeply equal. -/
def DeepEqual (x y : Value) : Bool :=
  if !x.IsValid || !y.IsValid then !x.IsValid && !y.IsValid
  else x.typeOf == y.typeOf && deepValueEqual x y

/-! ## ftest.go -/

/-- The `strings.Contains` on the bytes of two strings. -/
def containsChars : List Char → List Char → Bool
  | [], sub => sub.isEmpty
  | c :: cs, sub => sub.isPrefixOf (c :: cs) || containsChars cs sub

/-- The `strings.Contains(str, substr)`. -/
def stringsContains (str substr : String) : Bool :=
  containsChars str.data substr.data

/-- The `fmt` verbs on values that the messages use. -/
structure Fmt where
  /-- the `%v` verb -/
  v : Value → String
  /-- the `%s` verb -/
  s : Value → String

/-- An Assertion holds the reporter and a label; the reporter aborts the
test, which is the error of `Except`. -/
structure Assertion where
  label : String
  deriving DecidableEq, Repr

/-- Go `NewLabel`. -/
def NewLabel (label : String) : Assertion := ⟨label⟩

/-- Go `New`: the label is "Assertion". -/
def New : Assertion := NewLabel "Assertion"

/-- Go `fail`: `ass.t.Fatalf("[%s] %s", ass.label, msg)`. -/
def Assertion.fail (ass : Assertion) (msg : String) : Except String Unit :=
  .error ("[" ++ ass.label ++ "] " ++ msg)

/-- Go `deepEq`: the nil-aware comparator. -/
def Assertion.deepEq (got expected : Value) : Bool :=
  if !got.IsValid then !expected.IsValid || isNil expected
  else if !expected.IsValid then !got.IsValid || isNil got
  else DeepEqual got expected || (isNil got && isNil expected)

/-- Go `NotEqf`; `msg` is the formatted failure message. -/
def Assertion.NotEqf (ass : Assertion) (got expected : Value) (msg : String) :
    Except String Assertion := do
  if Assertion.deepEq got expected then
    ass.fail msg
  return ass

/-- Go `Eqf`; `msg` is the formatted failure message. -/
def Assertion.Eqf (ass : Assertion) (got expected : Value) (msg : String) :
    Except String Assertion := do
  if !Assertion.deepEq got expected then
    ass.fail msg
  return ass

/-- Go `NotEq`. -/
def Assertion.NotEq (fmt : Fmt) (ass : Assertion) (got expected : Value) :
    Except String Assertion :=
  ass.NotEqf got expected ("are equal: " ++ typeString got ++ "(" ++ fmt.v got ++ ")")

/-- Go `Eq`: a nil operand is marked in the default message. -/
def Assertion.Eq (fmt : Fmt) (ass : Assertion) (got expected : Value) :
    Except String Assertion :=
  let gotNilS := if isNil got then "*nil*" else ""
  let expNilS := if isNil expected then "*nil*" else ""
  ass.Eqf got expected
    ("got: " ++ typeString got ++ "(" ++ gotNilS ++ fmt.v got ++ "), expected: "
      ++ typeString expected ++ "(" ++ expNilS ++ fmt.v expected ++ ")")

/-- Go `Containsf`. -/
def Assertion.Containsf (ass : Assertion) (str substr msg : String) :
    Except String Assertion := do
  if !stringsContains str substr then
    ass.fail msg
  return ass

/-- Go `Contains`. -/
def Assertion.Contains (ass : Assertion) (str substr : String) :
    Except String Assertion :=
  ass.Containsf str substr ("\"" ++ str ++ "\" doesn't contain \"" ++ substr ++ "\"")

/-- Go `NotNilf`. -/
def Assertion.NotNilf (ass : Assertion) (got : Value) (msg : String) :
    Except String Assertion :=
  ass.NotEqf got .nil msg

/-- Go `NotNil`. -/
def Assertion.NotNil (fmt : Fmt) (ass : Assertion) (got : Value) :
    Except String Assertion :=
  ass.NotNilf got (typeString got ++ "(" ++ fmt.v got ++ ") is nil")

/-- Go `Nilf`. -/
def Assertion.Nilf (ass : Assertion) (got : Value) (msg : String) :
    Except String Assertion :=
  ass.Eqf got .nil msg

/-- Go `Nil`. -/
def Assertion.Nil (fmt : Fmt) (ass : Assertion) (got : Value) :
    Except String Assertion :=
  ass.Nilf got (typeString got ++ "(" ++ fmt.v got ++ ") isn't nil")

/-- Go `Falsef`. -/
def Assertion.Falsef (ass : Assertion) (got : Bool) (msg : String) :
    Except String Assertion :=
  ass.Eqf (.bool got) (.bool false) msg

/-- Go `False`. -/
def Assertion.False (ass : Assertion) (got : Bool) : Except String Assertion :=
  ass.Falsef got "Not false"

/-- Go `Truef`. -/
def Assertion.Truef (ass : Assertion) (got : Bool) (msg : String) :
    Except String Assertion :=
  ass.Eqf (.bool got) (.bool true) msg

/-- Go `True`. -/
def Assertion.True (ass : Assertion) (got : Bool) : Except String Assertion :=
  ass.Truef got "Not true"

/-- A check reports a failure when it ends in `Fatalf`. -/
def failed {α : Type} (r : Except String α) : Bool :=
  match r with
  | .error _ => true
  | .ok _ => false

/-! ## fclient.go -/

/-- An `http.Cookie`, with the attributes the client and the jar look at.
`Expires` is an instant in seconds, `none` when the attribute is not set. -/
structure Cookie where
  Name : String
  Value : String
  Path : String
  Domain : String
  Expires : Option Nat
  deriving DecidableEq, Repr

/-- Header names are canonical MIME keys; `Set` leaves one value per name. -/
abbrev Header := List (String × String)

/-- The bytes a header name may be made of (the token characters). -/
def validHeaderFieldByte (c : Char) : Bool :=
  c.isAlphanum || "!#$%&*+-.^_|~".data.contains c || c.toNat == 39 || c.toNat == 96

/-- The loop of `canonicalMIMEHeaderKey`: upper case at the start and after a
dash, lower case elsewhere. -/
def canonicalLoop (upper : Bool) : List Char → List Char
  | [] => []
  | c :: cs =>
      let c' := if upper then c.toUpper else c.toLower
      c' :: canonicalLoop (c' == '-') cs

/-- The `textproto.CanonicalMIMEHeaderKey`: a name with a byte that is not a
token character is left as it is. -/
def CanonicalMIMEHeaderKey (s : String) : String :=
  if s.data.all validHeaderFieldByte then ⟨canonicalLoop true s.data⟩ else s

/-- Go `Header.Set`. -/
def Header.Set (h : Header) (key value : String) : Header :=
  h.filter (fun kv => kv.1 != CanonicalMIMEHeaderKey key) ++ [(CanonicalMIMEHeaderKey key, value)]

/-- Go `Header.Get`: the value under the canonical name, or "". -/
def Header.Get (h : Header) (key : String) : String :=
  match h.lookup (CanonicalMIMEHeaderKey key) with
  | some v => v
  | none => ""

/-- An `http.Request`: `RequestURI` is the target of the request line as it
was given (the host and the query of the request are read from it), `Path` is
`req.URL.Path`, the path parsed from the target; the cookies of a request are
in its `Cookie` header. -/
structure Request where
  Method : String
  RequestURI : String
  Path : String
  Body : String
  Header : Header
  deriving DecidableEq, Repr

/-! ### Cookies in the Cookie header (net/http) -/

/-- The blanks that `textproto.TrimString` removes. -/
def isASCIISpace (c : Char) : Bool :=
  c == ' ' || c == '\t' || c == '\n' || c == '\r'

/-- The `textproto.TrimString`: without the blanks at both ends. -/
def trimString (s : List Char) : List Char :=
  ((s.dropWhile isASCIISpace).reverse.dropWhile isASCIISpace).reverse

/-- The bytes a cookie value may be made of. -/
def validCookieValueByte (c : Char) : Bool :=
  decide (0x20 ≤ c.toNat) && decide (c.toNat < 0x7f) && c != '"' && c != ';' && c != '\\'

/-- The `isCookieNameValid` of net/http: a name is a token that is not empty. -/
def isCookieNameValid (name : List Char) : Bool :=
  !name.isEmpty && name.all validHeaderFieldByte

/-- The `sanitizeCookieName` of net/http: a line break becomes a dash. -/
def sanitizeCookieName (name : String) : String :=
  ⟨name.data.map (fun c => if c == '\n' || c == '\r' then '-' else c)⟩

/-- The `sanitizeCookieValue` of net/http: the bytes a value may not hold are
dropped, and a value with a blank or a comma is put between double quotes. -/
def sanitizeCookieValue (v : String) : String :=
  let w := v.data.filter validCookieValueByte
  if w.isEmpty then ""
  else if w.any (fun c => c == ' ' || c == ',') then ⟨'"' :: w ++ ['"']⟩
  else ⟨w⟩

/-- The `parseCookieValue` of net/http with double quotes allowed: the quotes
around the value are stripped, and every byte has to be valid. -/
def parseCookieValue (raw : List Char) : Option (List Char) :=
  let raw := if decide (1 < raw.length) && raw.head? == some '"' && raw.getLast? == some '"'
    then (raw.drop 1).dropLast else raw
  if raw.all validCookieValueByte then some raw else none

/-- The `strings.Cut(s, sep)`: the text before the first `sep` and the text
after it; the whole text and nothing when there is no `sep`. -/
def cutAt (sep : Char) : List Char → List Char × List Char
  | [] => ([], [])
  | c :: cs => if c == sep then ([], cs) else ((cutAt sep cs).1.cons c, (cutAt sep cs).2)

/-- The parts of a Cookie header line, which `;` separates. -/
def cookieParts : List Char → List (List Char)
  | [] => [[]]
  | c :: cs =>
      if c == ';' then [] :: cookieParts cs
      else match cookieParts cs with
        | p :: ps => (c :: p) :: ps
        | [] => [[c]]

/-- One part of a Cookie header line, as the loop of `readCookies` reads it:
the part is trimmed; an empty part, a part whose name is not valid and a part
whose value is not valid are skipped. -/
def readCookiePart (part : List Char) : Option (String × String) :=
  let part := trimString part
  if part.isEmpty then none
  else
    let name := trimString (cutAt '=' part).1
    if !isCookieNameValid name then none
    else match parseCookieValue (cutAt '=' part).2 with
      | some v => some (⟨name⟩, ⟨v⟩)
      | none => none

/-- The `readCookies` of net/http on one Cookie header line: the name and the
value of every cookie in it. -/
def readCookies (line : String) : List (String × String) :=
  (cookieParts line.data).filterMap readCookiePart

/-- Go `Request.Cookies`: the cookies in the `Cookie` header. -/
def Request.Cookies (req : Request) : List (String × String) :=
  readCookies (req.Header.Get "Cookie")

/-- What `AddCookie` writes for a cookie: `name=value`, sanitized. -/
def cookieString (c : Cookie) : String :=
  sanitizeCookieName c.Name ++ "=" ++ sanitizeCookieValue c.Value

/-- Go `Request.AddCookie`: `name=value`, sanitized, is set as the `Cookie`
header, after "; " when the header is there already. -/
def Request.AddCookie (req : Request) (c : Cookie) : Request :=
  let s := cookieString c
  let old := req.Header.Get "Cookie"
  if old != "" then { req with Header := req.Header.Set "Cookie" (old ++ "; " ++ s) }
  else { req with Header := req.Header.Set "Cookie" s }

/-- A Response: the recorder after the handler has written into it.
`SetCookies` are the cookies `resp.Result().Cookies()` reads. -/
structure Response where
  Code : Int
  Body : String
  Header : Header
  SetCookies : List Cookie
  deriving DecidableEq, Repr

/-- The URL a jar is asked with. -/
structure URL where
  Host : String
  Path : String
  deriving DecidableEq, Repr

/-! ### The cookie jar -/

/-- Modelled from the spec: a cookie stored in the jar (net/http/cookiejar is
not part of the sources), keyed by domain, path and name (spec §3). -/
structure JarEntry where
  Name : String
  Value : String
  Domain : String
  Path : String
  Expires : Option Nat
  deriving DecidableEq, Repr

/-- Modelled from the spec: the Jar is the collection of stored cookies
(spec §3); the order of the entries carries no meaning. -/
abbrev Jar := List JarEntry

/-- Modelled from the spec: the path a cookie without a usable `Path` gets,
"/" for a request to a top-level path (spec §3 "defaults to /"), in general the
directory of the request path as in RFC 6265 §5.1.4. -/
def defaultPath (path : String) : String :=
  match path.data with
  | '/' :: rest =>
      let dir := ('/' :: rest).reverse.dropWhile (fun c => c != '/')
      if dir.length ≤ 1 then "/" else ⟨(dir.drop 1).reverse⟩
  | _ => "/"

/-- Modelled from the spec: "path is a prefix-match of the requested path
(exact root / matches everything)" (spec §4.3), the path-match of RFC 6265:
equal paths, or the cookie path is a prefix that ends at a "/". -/
def pathMatch (cookiePath requestPath : String) : Bool :=
  requestPath == cookiePath ||
    (cookiePath.data.isPrefixOf requestPath.data &&
      (cookiePath.data.getLast? == some '/' ||
        (requestPath.data.drop cookiePath.data.length).head? == some '/'))

/-- Modelled from the spec: the path under which a cookie is stored. -/
def effectivePath (u : URL) (c : Cookie) : String :=
  match c.Path.data with
  | '/' :: _ => c.Path
  | _ => defaultPath u.Path

/-- Modelled from the spec: an instant "at or before the current instant"
(spec §4.3) is expired; a cookie without expiration never is. -/
def expiredAt (now : Nat) (expires : Option Nat) : Bool :=
  match expires with
  | some t => decide (t ≤ now)
  | none => false

/-- Modelled from the spec: do the domain, path and name of an entry make the
key under which the cookie is stored for this URL? -/
def sameKey (u : URL) (c : Cookie) (e : JarEntry) : Bool :=
  e.Domain == c.Domain && e.Path == effectivePath u c && e.Name == c.Name

/-- Modelled from the spec: one cookie written to the jar (spec §4.3 "On
write"): an expired cookie removes the entry with its key and is not stored,
any other replaces it. -/
def Jar.setCookie (now : Nat) (u : URL) (jar : Jar) (c : Cookie) : Jar :=
  let rest := jar.filter (fun e => !sameKey u c e)
  if expiredAt now c.Expires then rest
  else rest ++ [⟨c.Name, c.Value, c.Domain, effectivePath u c, c.Expires⟩]

/-- Modelled from the spec: `setCookies(url, cookies)` (spec §4.3), at the
instant `now`. -/
def Jar.SetCookies (now : Nat) (jar : Jar) (u : URL) (cookies : List Cookie) : Jar :=
  cookies.foldl (Jar.setCookie now u) jar

/-- Modelled from the spec: the path a request asks the jar with; an empty
URL path is the root. -/
def requestPath (path : String) : String :=
  if path == "" then "/" else path

/-- Modelled from the spec: does a stored cookie go with a request to this URL
at this instant (spec §4.3 "On read")? Its domain is the wildcard, its path
matches the requested path, and it is not expired. -/
def JarEntry.sentTo (now : Nat) (u : URL) (e : JarEntry) : Bool :=
  e.Domain == "" && pathMatch e.Path (requestPath u.Path) && !expiredAt now e.Expires

/-- Modelled from the spec: `cookies(url)` (spec §4.3), at the instant `now`. -/
def Jar.Cookies (now : Nat) (jar : Jar) (u : URL) : List Cookie :=
  (jar.filter (JarEntry.sentTo now u)).map
    (fun e => ⟨e.Name, e.Value, "", "", none⟩)

/-! ### Client -/

/-- Client: the handler under test (a function from the request to what it
writes into the recorder), the default headers (a Go map, given by its
entries), and the jar, which can be nil. -/
structure Client where
  handler : Request → Response
  DefaultHeaders : List (String × String)
  Jar : Option Jar

/-- Go `urlFromReq`: the fixed origin https://example.com with the path of the
request. -/
def urlFromReq (req : Request) : URL :=
  ⟨"example.com", req.Path⟩

/-- The part of net/http that reads a request line, a parameter. -/
structure NetHTTP where
  /-- the `req.URL.Path` that `http.ReadRequest` gives for the request line
  "method target HTTP/1.0" (the target parsed as a request URI: an absolute
  URL loses scheme and host, a query is cut off, escapes are decoded), or
  nothing when the line does not parse -/
  urlPath : String → String → Option String

/-- The `httptest.NewRequest`: an empty method is GET; the request line is
read, and `NewRequest` panics (nothing is returned) when it does not parse;
the request has no header. -/
def httptestNewRequest (net : NetHTTP) (method target body : String) : Option Request :=
  let method := if method == "" then "GET" else method
  match net.urlPath method target with
  | some path => some ⟨method, target, path, body, []⟩
  | none => none

/-- Go `Client.Do` at the instant `now`: the response, and the client with the
jar after the cookies of the response are stored. -/
def Client.Do (cl : Client) (now : Nat) (req : Request) : Response × Client :=
  let resp := cl.handler req
  match cl.Jar with
  | none => (resp, cl)
  | some jar =>
      let cookies := resp.SetCookies.foldl
        (fun cookies c => cookies ++ [{ c with Domain := "" }]) []
      (resp, { cl with Jar := some (jar.SetCookies now (urlFromReq req) cookies) })

/-- Go `Client.NewRequest` at the instant `now`; nothing is returned when
`httptest.NewRequest` panics. -/
def Client.NewRequest (net : NetHTTP) (cl : Client) (now : Nat) (method path body : String) :
    Option Request :=
  match httptestNewRequest net method path body with
  | none => none
  | some req =>
      match cl.Jar with
      | none => some req
      | some jar =>
          let req := cl.DefaultHeaders.foldl
            (fun r kv => { r with Header := r.Header.Set kv.1 kv.2 }) req
          some ((jar.Cookies now (urlFromReq req)).foldl Request.AddCookie req)

/-- Go `Client.Get`. -/
def Client.Get (net : NetHTTP) (cl : Client) (now : Nat) (path : String) :
    Option (Response × Client) :=
  match cl.NewRequest net now "GET" path "" with
  | some req => some (cl.Do now req)
  | none => none

/-! ### Response -/

/-- Go `[]byte(s)`. -/
def bytesOfString (s : String) : List Nat :=
  s.data.map Char.toNat

/-- Go `string(data)`. -/
def stringOfBytes (data : List Nat) : String :=
  ⟨data.map Char.ofNat⟩

/-- The byte of an element of a `[]byte`. -/
def byteOf : Value → Nat
  | .uint8 n => n
  | _ => 0

/-- Go `toBytes`: a `[]byte` as it is, a string as its bytes, nil as the nil byte
slice, and `Fatalf` for every other type. -/
def toBytes (v : Value) : Except String (List Nat) :=
  match v with
  | .nilSlice .uint8 => .ok []
  | .slice .uint8 items => .ok (items.map byteOf)
  | .string s => .ok (bytesOfString s)
  | .nil => .ok []
  | v => .error ("Unexpected type " ++ typeString v ++ "!")

/-- Go `Client.Post`: the body goes through `toBytes`. -/
def Client.Post (net : NetHTTP) (cl : Client) (now : Nat) (path : String) (body : Value) :
    Except String (Option (Response × Client)) := do
  let data ← toBytes body
  match cl.NewRequest net now "POST" path (stringOfBytes data) with
  | some req => return some (cl.Do now req)
  | none => return none

/-- Go `Response.CodeEq`. -/
def Response.CodeEq (fmt : Fmt) (resp : Response) (expected : Int) :
    Except String Response := do
  let got := resp.Code
  let _ ← (NewLabel "CodeEq").Eq fmt (.int got) (.int expected)
  return resp

/-- Go `Response.BodyEq`. -/
def Response.BodyEq (fmt : Fmt) (resp : Response) (expected : Value) :
    Except String Response := do
  let expStr := stringOfBytes (← toBytes expected)
  let got := resp.Body
  let _ ← (NewLabel "BodyEq").Eq fmt (.string got) (.string expStr)
  return resp

/-- Go `Response.BodyContains`. -/
def Response.BodyContains (resp : Response) (substr : String) :
    Except String Response := do
  let _ ← (NewLabel "BodyContains").Contains resp.Body substr
  return resp

/-- The two functions of `encoding/json` the client calls; an error carries
its text. -/
structure JSONCodec where
  /-- the `json.Unmarshal` into an `interface{}` -/
  Unmarshal : String → Except String Value
  /-- the `json.Marshal` -/
  Marshal : Value → Except String String

/-- Go `Response.JSONEq`. -/
def Response.JSONEq (json : JSONCodec) (resp : Response) (expected : Value) :
    Except String Response := do
  let respObj ← match json.Unmarshal resp.Body with
    | .ok v => pure v
    | .error _ => throw ("JSONEq: response body isn't a valid JSON:\n" ++ resp.Body)
  let expectedBytes ← match expected with
    | .string v => pure v
    | _ => match json.Marshal expected with
      | .ok b => pure b
      | .error err => throw ("Can't convert to JSON: " ++ err)
  let expectedObj ← match json.Unmarshal expectedBytes with
    | .ok v => pure v
    | .error err => throw ("JSONEq: argument isn't a valid JSON " ++ err)
  let _ ← (NewLabel "JSONEq").Eqf respObj expectedObj
    ("got:\n" ++ resp.Body ++ "\nexpected:\n" ++ expectedBytes)
  return resp

/-- Go `Response.HeaderEq`. -/
def Response.HeaderEq (fmt : Fmt) (resp : Response) (key value : String) :
    Except String Response := do
  let _ ← (NewLabel "HeaderEq").Eq fmt (.string (resp.Header.Get key)) (.string value)
  return resp

/-! ## The words of the claims -/

/-- The nil-like values: the literal nil, a nil pointer, a nil slice, a nil
map, of any declared type. -/
def nilLike : Value → Bool
  | .nil => true
  | .nilPtr _ => true
  | .nilSlice _ => true
  | .nilMap _ _ => true
  | _ => false

/-- An allocated container of length 0: an initialized slice or map without
elements. -/
def allocatedEmpty : Value → Bool
  | .slice _ [] => true
  | .map _ _ [] => true
  | _ => false

/-- Is the type of the value a byte sequence (`[]byte`) or text (`string`)? -/
def isBytesOrText (v : Value) : Bool :=
  v.typeOf == some (.slice .uint8) || v.typeOf == some .string

/-- The marker the default message of `Eq` puts in front of the value of an
operand, in the words of the claim but for the literal nil: `*nil*` for a nil
pointer, a nil slice and a nil map, nothing for any other operand. -/
def nilMarker (v : Value) : String :=
  if nilLike v && v.IsValid then "*nil*" else ""

/-- The keys of a map. -/
def mapKeys (entries : List (Key × Value)) : List Key :=
  entries.map Prod.fst

mutual
/-- The value trees `json.Unmarshal` stores in an `interface{}`: nil for
null, a bool, a float64, a string, a `[]interface{}` of trees, and a
`map[string]interface{}` of trees with one entry per key. -/
def isJSONTree : Value → Bool
  | .nil => true
  | .bool _ => true
  | .float64 _ => true
  | .string _ => true
  | .slice t items => t == .iface && allJSONTrees items
  | .map k e entries => k == .string && e == .iface && allJSONMembers entries
  | _ => false
/-- Every element is a JSON tree. -/
def allJSONTrees : List Value → Bool
  | [] => true
  | x :: xs => isJSONTree x && allJSONTrees xs
/-- Every entry has a string key that does not come again, and a JSON tree
as its value. -/
def allJSONMembers : List (Key × Value) → Bool
  | [] => true
  | (k, v) :: es =>
      (match k with
        | .str _ => true
        | _ => false) && !(mapKeys es).contains k && isJSONTree v && allJSONMembers es
end

mutual
/-- Structural equality of two parsed JSON trees, in the words of the spec:
a value equals only a value of the same JSON type; arrays are equal when
they have the same elements in the same order; objects are equal when they
have the same keys and equal values under each key, whatever the order. -/
def jsonTreeEq : Value → Value → Bool
  | .nil, .nil => true
  | .bool a, .bool b => a == b
  | .float64 a, .float64 b => f64Eq a b
  | .string a, .string b => a == b
  | .slice _ xs, .slice _ ys => jsonArrayEq xs ys
  | .map _ _ a, .map _ _ b =>
      jsonMembersIn a b && (mapKeys b).all (fun k => (mapKeys a).contains k)
  | _, _ => false
/-- Same elements in the same order. -/
def jsonArrayEq : List Value → List Value → Bool
  | [], [] => true
  | x :: xs, y :: ys => jsonTreeEq x y && jsonArrayEq xs ys
  | _, _ => false
/-- Every member of the first object has an equal member under its key in
the second. -/
def jsonMembersIn : List (Key × Value) → List (Key × Value) → Bool
  | [], _ => true
  | (k, v) :: es, b =>
      (match mapIndex k b with
        | some w => jsonTreeEq v w
        | none => false) && jsonMembersIn es b
end

/-- One call `cl.Do(cl.NewRequest(method, target, body))`, made at an
instant. -/
structure Call where
  now : Nat
  method : String
  target : String
  body : String
  deriving DecidableEq, Repr

/-- A sequence of calls `cl.Do(cl.NewRequest(method, target, body))`, one
after the other: the requests built with the responses to them, and the
client at the end; nothing when a `NewRequest` panics. -/
def Client.session (net : NetHTTP) (cl : Client) :
    List Call → Option (List (Request × Response) × Client)
  | [] => some ([], cl)
  | c :: cs =>
      match cl.NewRequest net c.now c.method c.target c.body with
      | none => none
      | some req =>
          match (cl.Do c.now req).2.session net cs with
          | none => none
          | some rest => some ((req, (cl.Do c.now req).1) :: rest.1, rest.2)

/-- A blank between two tokens. -/
def isBlank (c : Char) : Bool :=
  c == ' ' || c == '\n' || c == '\t' || c == '\r'

/-- The text after the leading blanks. -/
def skipBlanks : List Char → List Char
  | [] => []
  | c :: cs => if isBlank c then skipBlanks cs else c :: cs

/-- The characters of a string up to the closing quote, and the rest. -/
def readString : List Char → Option (List Char × List Char)
  | [] => none
  | c :: cs =>
      if c == '"' then some ([], cs)
      else if c == '\\' then none
      else match readString cs with
        | some (s, rest) => some (c :: s, rest)
        | none => none

/-- The leading digits as a number, and the rest. -/
def readDigits (acc : Nat) : List Char → Nat × List Char
  | [] => (acc, [])
  | c :: cs => if c.isDigit then readDigits (10 * acc + (c.toNat - 48)) cs else (acc, c :: cs)

/-- The position of the leading bit of a number (0 for 0 and 1). -/
def leadingBit : Nat → Nat → Nat
  | 0, _ => 0
  | fuel + 1, n => if n < 2 then 0 else leadingBit fuel (n / 2) + 1

/-- The bits of the float64 of a natural number below 2^53: sign 0, the
biased exponent, and the fraction below the leading bit. -/
def float64OfNat (n : Nat) : Nat :=
  if n == 0 then 0
  else (1023 + leadingBit 64 n) * 2 ^ 52 + (n - 2 ^ leadingBit 64 n) * 2 ^ (52 - leadingBit 64 n)

/-- A map with the entry for a key replaced or added (the last of a repeated
key wins). -/
def mapAssign (k : Key) (v : Value) (entries : List (Key × Value)) : List (Key × Value) :=
  entries.filter (fun kv => kv.1 != k) ++ [(k, v)]

mutual
/-- One JSON value at the head of the text. -/
def decodeValue : Nat → List Char → Option (Value × List Char)
  | 0, _ => none
  | fuel + 1, cs =>
      match skipBlanks cs with
      | 'n' :: 'u' :: 'l' :: 'l' :: rest => some (.nil, rest)
      | 't' :: 'r' :: 'u' :: 'e' :: rest => some (.bool true, rest)
      | 'f' :: 'a' :: 'l' :: 's' :: 'e' :: rest => some (.bool false, rest)
      | '"' :: rest =>
          (match readString rest with
            | some (s, rest) => some (.string ⟨s⟩, rest)
            | none => none)
      | '[' :: rest =>
          (match skipBlanks rest with
            | ']' :: rest => some (.slice .iface [], rest)
            | _ =>
              match decodeElements fuel rest with
              | some (items, rest) => some (.slice .iface items, rest)
              | none => none)
      | '\x7b' :: rest =>
          (match skipBlanks rest with
            | '\x7d' :: rest => some (.map .string .iface [], rest)
            | _ =>
              match decodeMembers fuel [] rest with
              | some (entries, rest) => some (.map .string .iface entries, rest)
              | none => none)
      | c :: rest =>
          if c.isDigit then
            let (n, rest) := readDigits 0 (c :: rest)
            some (.float64 (float64OfNat n), rest)
          else none
      | [] => none
/-- The elements of an array up to the closing bracket. -/
def decodeElements : Nat → List Char → Option (List Value × List Char)
  | 0, _ => none
  | fuel + 1, cs =>
      match decodeValue fuel cs with
      | none => none
      | some (v, rest) =>
          match skipBlanks rest with
          | ']' :: rest => some ([v], rest)
          | ',' :: rest =>
              (match decodeElements fuel rest with
                | some (vs, rest) => some (v :: vs, rest)
                | none => none)
          | _ => none
/-- The members of an object up to the closing brace. -/
def decodeMembers : Nat → List (Key × Value) → List Char → Option (List (Key × Value) × List Char)
  | 0, _, _ => none
  | fuel + 1, acc, cs =>
      match skipBlanks cs with
      | '"' :: rest =>
          (match readString rest with
            | none => none
            | some (k, rest) =>
                match skipBlanks rest with
                | ':' :: rest =>
                    (match decodeValue fuel rest with
                      | none => none
                      | some (v, rest) =>
                          match skipBlanks rest with
                          | '\x7d' :: rest => some (mapAssign (.str ⟨k⟩) v acc, rest)
                          | ',' :: rest => decodeMembers fuel (mapAssign (.str ⟨k⟩) v acc) rest
                          | _ => none)
                | _ => none)
      | _ => none
end

/-- The decoder on a whole text: one value, then nothing but blanks. -/
def decodeJSON (text : String) : Except String Value :=
  match decodeValue (text.length + 1) text.data with
  | some (v, rest) =>
      if (skipBlanks rest).isEmpty then .ok v else .error "invalid character after top-level value"
  | none => .error "unexpected end of JSON input"

/-- A codec for the fragment; values are not marshalled. -/
def fragmentCodec : JSONCodec :=
  ⟨decodeJSON, fun _ => .error "json: unsupported type"⟩

/-! ### Sample values -/

/-- A rendering of the `fmt` verbs for running a check on a concrete input:
with `%v` a string prints as its text, nil and a nil pointer as `<nil>`, a nil
or empty slice as `[]`, a nil or empty map as `map[]`; other values are not
rendered. -/
def sampleFmt : Fmt :=
  ⟨fun v => match v with
    | .string s => s
    | .nil => "<nil>"
    | .nilPtr _ => "<nil>"
    | .nilSlice _ => "[]"
    | .slice _ [] => "[]"
    | .nilMap _ _ => "map[]"
    | .map _ _ [] => "map[]"
    | _ => "?",
   fun v => match v with
    | .string s => s
    | .nil => "%!s(<nil>)"
    | _ => "?"⟩

/-- The characters that stand for themselves in a URL. -/
def isUnreserved (c : Char) : Bool :=
  c.isAlphanum || "-_.~".data.contains c

/-- The URL path of a target `/path` or `/path?query` whose path is made of
unreserved characters and `/` and whose query of unreserved characters, `=`
and `&`: the text before the `?`. -/
def plainPath (target : List Char) : Option String :=
  if (cutAt '?' target).1.head? == some '/' &&
      (cutAt '?' target).1.all (fun c => isUnreserved c || c == '/') &&
      (cutAt '?' target).2.all (fun c => isUnreserved c || c == '=' || c == '&')
  then some ⟨(cutAt '?' target).1⟩ else none

/-- A stand-in for the reading of the request line where a call is run on a
concrete target. The method is a token other than CONNECT. The target is
`/path`, `/path?query`, or one of the two after `http://host` with a host of
unreserved characters; the URL path is the path, as it is. The stand-in knows
no other target. -/
def plainTargets : NetHTTP :=
  ⟨fun method target =>
    if !isCookieNameValid method.data || method == "CONNECT" then none
    else if "http://".data.isPrefixOf target.data then
      if !((target.data.drop 7).takeWhile (fun c => c != '/')).isEmpty &&
          ((target.data.drop 7).takeWhile (fun c => c != '/')).all isUnreserved
      then plainPath ((target.data.drop 7).dropWhile (fun c => c != '/'))
      else none
    else plainPath target.data⟩

/-- The handler `makeHandlerCookie` of cookies_test.go on its two paths:
`/get` answers "empty" or the value of the cookie, according to whether the
request carries a cookie of the name; `/set` sets the cookie. (Its panic on
another path is not modelled: the handler is run on these two paths only.) -/
def makeHandlerCookie (name : String) (cookie : Cookie) (req : Request) : Response :=
  if req.Path == "/get" then
    match req.Cookies.lookup name with
    | none => ⟨200, "empty", [], []⟩
    | some _ => ⟨200, cookie.Value, [], []⟩
  else ⟨200, "Stored", [], [cookie]⟩

/-- The handler `makeBodyResp` of fclient_test.go: it writes the body. -/
def makeBodyResp (body : String) (_ : Request) : Response :=
  ⟨200, body, [], []⟩

/-- The cookie `foo=bar` of cookies_test.go. -/
def fooBar : Cookie :=
  ⟨"foo", "bar", "", "", none⟩

/-- The client `fclient.New(t, handler)`: an empty jar, no default header. -/
def Client.New (handler : Request → Response) : Client :=
  ⟨handler, [], some []⟩

/-! ## Lemmas -/

theorem isNil_of_nilLike (v : Value) (h : nilLike v = true) (hv : v.IsValid = true) :
    isNil v = true := by
  cases v <;> simp_all [nilLike, Value.IsValid, isNil, Value.IsNil]

theorem deepEq_nilLike (got expected : Value)
    (hg : nilLike got = true) (he : nilLike expected = true) :
    Assertion.deepEq got expected = true := by
  unfold Assertion.deepEq
  cases hgv : got.IsValid <;> cases hev : expected.IsValid <;>
    simp [isNil_of_nilLike, *]

theorem Eqf_ok_iff (ass : Assertion) (got expected : Value) (msg : String) :
    ass.Eqf got expected msg = .ok ass ↔ Assertion.deepEq got expected = true := by
  unfold Assertion.Eqf
  cases h : Assertion.deepEq got expected <;>
    simp [Assertion.fail, bind, Except.bind, pure, Except.pure]

theorem failed_Eqf (ass : Assertion) (got expected : Value) (msg : String) :
    failed (ass.Eqf got expected msg) = !Assertion.deepEq got expected := by
  unfold Assertion.Eqf
  cases h : Assertion.deepEq got expected <;>
    simp [Assertion.fail, bind, Except.bind, pure, Except.pure, failed]

theorem failed_NotEqf (ass : Assertion) (got expected : Value) (msg : String) :
    failed (ass.NotEqf got expected msg) = Assertion.deepEq got expected := by
  unfold Assertion.NotEqf
  cases h : Assertion.deepEq got expected <;>
    simp [Assertion.fail, bind, Except.bind, pure, Except.pure, failed]

theorem deepEq_allocatedEmpty_left (e n : Value)
    (he : allocatedEmpty e = true) (hn : nilLike n = true) :
    Assertion.deepEq e n = false := by
  cases e <;> simp [allocatedEmpty] at he <;> cases n <;> simp [nilLike] at hn <;>
    simp [Assertion.deepEq, Value.IsValid, isNil, Value.IsNil, DeepEqual, deepValueEqual]

theorem deepEq_allocatedEmpty_right (e n : Value)
    (he : allocatedEmpty e = true) (hn : nilLike n = true) :
    Assertion.deepEq n e = false := by
  cases e <;> simp [allocatedEmpty] at he <;> cases n <;> simp [nilLike] at hn <;>
    simp [Assertion.deepEq, Value.IsValid, isNil, Value.IsNil, DeepEqual, deepValueEqual]

theorem mapIndex_eq_none_iff (k : Key) (es : List (Key × Value)) :
    mapIndex k es = none ↔ k ∉ mapKeys es := by
  induction es with
  | nil => simp [mapIndex, mapKeys]
  | cons e es ih =>
    obtain ⟨k', v⟩ := e
    by_cases h : k' = k
    · simp [mapIndex, mapKeys, h]
    · have h' : ¬ k = k' := fun h'' => h h''.symm
      simpa [mapIndex, mapKeys, h, h'] using ih

theorem isJSONTree_of_mapIndex (k : Key) (w : Value) :
    ∀ es : List (Key × Value), allJSONMembers es = true → mapIndex k es = some w →
      isJSONTree w = true
  | [], _, h => by simp [mapIndex] at h
  | (k', v) :: es, hes, h => by
    simp only [allJSONMembers, Bool.and_eq_true] at hes
    by_cases hk : k' = k
    · simp [mapIndex, hk] at h
      exact h ▸ hes.1.2
    · simp [mapIndex, hk] at h
      exact isJSONTree_of_mapIndex k w es hes.2 h

theorem nodup_mapKeys : ∀ es : List (Key × Value), allJSONMembers es = true →
    (mapKeys es).Nodup
  | [], _ => by simp [mapKeys]
  | (k, v) :: es, h => by
    simp only [allJSONMembers, Bool.and_eq_true] at h
    have ih := nodup_mapKeys es h.2
    have hk : k ∉ mapKeys es := by simpa using h.1.1.2
    simpa [mapKeys] using And.intro (by simpa [mapKeys] using hk) (by simpa [mapKeys] using ih)

theorem deepValuesEqual_length : ∀ xs ys : List Value, deepValuesEqual xs ys = true →
    xs.length = ys.length
  | [], [], _ => rfl
  | [], _ :: _, h => by simp [deepValuesEqual] at h
  | _ :: _, [], h => by simp [deepValuesEqual] at h
  | x :: xs, y :: ys, h => by
    simp only [deepValuesEqual, Bool.and_eq_true] at h
    simp [deepValuesEqual_length xs ys h.2]

theorem jsonMembersIn_subset : ∀ a b : List (Key × Value), jsonMembersIn a b = true →
    mapKeys a ⊆ mapKeys b
  | [], _, _ => by simp [mapKeys]
  | (k, v) :: es, b, h => by
    simp only [jsonMembersIn, Bool.and_eq_true] at h
    have ih := jsonMembersIn_subset es b h.2
    have hk : k ∈ mapKeys b := by
      by_contra hc
      rw [(mapIndex_eq_none_iff k b).2 hc] at h
      simp at h
    intro x hx
    simp only [mapKeys, List.map_cons, List.mem_cons] at hx
    rcases hx with rfl | hx
    · exact hk
    · exact ih hx

theorem length_eq_iff_keys_subset (a b : List (Key × Value))
    (ha : (mapKeys a).Nodup) (hb : (mapKeys b).Nodup) (hab : mapKeys a ⊆ mapKeys b) :
    a.length = b.length ↔ mapKeys b ⊆ mapKeys a := by
  have hsp := List.subperm_of_subset ha hab
  constructor
  · intro hl
    have hp := hsp.perm_of_length_le (by simp [mapKeys, hl])
    exact hp.symm.subset
  · intro hba
    have h1 := hsp.length_le
    have h2 := (List.subperm_of_subset hb hba).length_le
    simp only [mapKeys, List.length_map] at h1 h2
    omega

theorem isJSONTree_slice (t : GoType) (xs : List Value)
    (h : isJSONTree (.slice t xs) = true) : t = .iface ∧ allJSONTrees xs = true := by
  simpa [isJSONTree] using h

theorem isJSONTree_map (kt et : GoType) (a : List (Key × Value))
    (h : isJSONTree (.map kt et a) = true) :
    kt = .string ∧ et = .iface ∧ allJSONMembers a = true := by
  simpa [isJSONTree, and_assoc] using h

theorem all_contains_iff_subset (a b : List Key) :
    (b.all fun k => a.contains k) = true ↔ b ⊆ a := by
  simp [List.subset_def]

theorem map_case (a b : List (Key × Value)) (ha : allJSONMembers a = true)
    (hb : allJSONMembers b = true) :
    (a.length == b.length && jsonMembersIn a b) =
      (jsonMembersIn a b && (mapKeys b).all (fun k => (mapKeys a).contains k)) := by
  cases hm : jsonMembersIn a b
  · simp
  · have hsub := jsonMembersIn_subset a b hm
    have hiff := length_eq_iff_keys_subset a b (nodup_mapKeys a ha) (nodup_mapKeys b hb) hsub
    rw [Bool.eq_iff_iff]
    simp only [Bool.and_true, Bool.true_and, beq_iff_eq, all_contains_iff_subset]
    exact hiff

mutual
theorem deepValueEqual_eq_jsonTreeEq : ∀ r e : Value, isJSONTree r = true →
    isJSONTree e = true → deepValueEqual r e = jsonTreeEq r e
  | .nil, e, _, he => by cases e <;> simp_all [deepValueEqual, jsonTreeEq, isJSONTree]
  | .bool _, e, _, he => by cases e <;> simp_all [deepValueEqual, jsonTreeEq, isJSONTree]
  | .float64 _, e, _, he => by cases e <;> simp_all [deepValueEqual, jsonTreeEq, isJSONTree]
  | .string _, e, _, he => by cases e <;> simp_all [deepValueEqual, jsonTreeEq, isJSONTree]
  | .int _, _, hr, _ => by simp [isJSONTree] at hr
  | .int32 _, _, hr, _ => by simp [isJSONTree] at hr
  | .uint8 _, _, hr, _ => by simp [isJSONTree] at hr
  | .nilSlice _, _, hr, _ => by simp [isJSONTree] at hr
  | .nilMap _ _, _, hr, _ => by simp [isJSONTree] at hr
  | .nilPtr _, _, hr, _ => by simp [isJSONTree] at hr
  | .ptr _ _ _, _, hr, _ => by simp [isJSONTree] at hr
  | .struct _ _, _, hr, _ => by simp [isJSONTree] at hr
  | .slice t xs, e, hr, he => by
    have ih := fun ys => deepValuesEqual_eq_jsonArrayEq xs ys (isJSONTree_slice t xs hr).2
    have ht := (isJSONTree_slice t xs hr).1
    cases e <;> try simp [deepValueEqual, jsonTreeEq]
    rename_i u ys
    have hu := isJSONTree_slice u ys he
    rw [← ih ys hu.2, ht, hu.1]
    cases hd : deepValuesEqual xs ys
    · simp
    · simp [deepValuesEqual_length xs ys hd]
  | .map kt et a, e, hr, he => by
    have ha := isJSONTree_map kt et a hr
    have ih := fun b => deepEntriesEqual_eq_jsonMembersIn a b ha.2.2
    cases e <;> try simp [deepValueEqual, jsonTreeEq]
    rename_i ku eu b
    have hb := isJSONTree_map ku eu b he
    rw [ih b hb.2.2, ha.1, ha.2.1, hb.1, hb.2.1]
    simpa using map_case a b ha.2.2 hb.2.2
theorem deepValuesEqual_eq_jsonArrayEq : ∀ xs ys : List Value, allJSONTrees xs = true →
    allJSONTrees ys = true → deepValuesEqual xs ys = jsonArrayEq xs ys
  | [], [], _, _ => by simp [deepValuesEqual, jsonArrayEq]
  | [], _ :: _, _, _ => by simp [deepValuesEqual, jsonArrayEq]
  | _ :: _, [], _, _ => by simp [deepValuesEqual, jsonArrayEq]
  | x :: xs, y :: ys, hx, hy => by
    simp only [allJSONTrees, Bool.and_eq_true] at hx hy
    simp [deepValuesEqual, jsonArrayEq, deepValueEqual_eq_jsonTreeEq x y hx.1 hy.1,
      deepValuesEqual_eq_jsonArrayEq xs ys hx.2 hy.2]
theorem deepEntriesEqual_eq_jsonMembersIn : ∀ a b : List (Key × Value),
    allJSONMembers a = true → allJSONMembers b = true →
    deepEntriesEqual a b = jsonMembersIn a b
  | [], _, _, _ => by simp [deepEntriesEqual, jsonMembersIn]
  | (k, v) :: es, b, ha, hb => by
    simp only [allJSONMembers, Bool.and_eq_true] at ha
    have ih := deepEntriesEqual_eq_jsonMembersIn es b ha.2 hb
    simp only [deepEntriesEqual, jsonMembersIn, ih]
    cases hm : mapIndex k b with
    | none => rfl
    | some w =>
      simp only
      rw [deepValueEqual_eq_jsonTreeEq v w ha.1.2 (isJSONTree_of_mapIndex k w b hb hm)]
end

theorem isNil_of_isJSONTree (v : Value) (h : isJSONTree v = true) : isNil v = false := by
  cases v <;> simp_all [isJSONTree, isNil, Value.IsNil]

theorem typeOf_eq_of_deepValueEqual (r e : Value) (h : deepValueEqual r e = true) :
    r.typeOf = e.typeOf := by
  cases r <;> cases e <;> simp_all [deepValueEqual, Value.typeOf]

theorem deepEq_eq_jsonTreeEq (r e : Value) (hr : isJSONTree r = true)
    (he : isJSONTree e = true) : Assertion.deepEq r e = jsonTreeEq r e := by
  rw [← deepValueEqual_eq_jsonTreeEq r e hr he]
  have hnr := isNil_of_isJSONTree r hr
  have hne := isNil_of_isJSONTree e he
  cases hd : deepValueEqual r e
  · cases r <;> cases e <;>
      simp_all [Assertion.deepEq, DeepEqual, Value.IsValid, isNil, Value.IsNil, deepValueEqual]
  · have ht := typeOf_eq_of_deepValueEqual r e hd
    cases r <;> cases e <;>
      simp_all [Assertion.deepEq, DeepEqual, Value.IsValid, isNil, Value.IsNil, deepValueEqual]

/-! ### The Cookie header, the jar and the client -/

theorem httptestNewRequest_header (net : NetHTTP) (method target body : String) (r0 : Request)
    (h : httptestNewRequest net method target body = some r0) : r0.Header = [] := by
  unfold httptestNewRequest at h
  revert h
  generalize (if method == "" then "GET" else method) = m
  intro h
  cases hu : net.urlPath m target with
  | none => simp [hu] at h
  | some p =>
    simp only [hu, Option.some.injEq] at h
    rw [← h]

theorem session_nil (net : NetHTTP) (cl : Client) : cl.session net [] = some ([], cl) := rfl

theorem session_cons (net : NetHTTP) (cl : Client) (c : Call) (cs : List Call)
    (log : List (Request × Response)) (cl2 : Client)
    (h : cl.session net (c :: cs) = some (log, cl2)) :
    ∃ req rest, cl.NewRequest net c.now c.method c.target c.body = some req ∧
      (cl.Do c.now req).2.session net cs = some (rest, cl2) ∧
      log = (req, (cl.Do c.now req).1) :: rest := by
  simp only [Client.session] at h
  cases hr : cl.NewRequest net c.now c.method c.target c.body with
  | none => simp [hr] at h
  | some req =>
    simp only [hr] at h
    cases hs : (cl.Do c.now req).2.session net cs with
    | none => simp [hs] at h
    | some rest =>
      simp only [hs, Option.some.injEq, Prod.mk.injEq] at h
      exact ⟨req, rest.1, rfl, by rw [← h.2, hs], h.1.symm⟩

theorem BodyEq_eq (fmt : Fmt) (resp : Response) (v : Value) :
    resp.BodyEq fmt v = (do
      let data ← toBytes v
      let _ ← (NewLabel "BodyEq").Eq fmt (.string resp.Body) (.string (stringOfBytes data))
      return resp) := rfl

theorem toBytes_unexpected (v : Value) (hv : v.IsValid = true) (ht : isBytesOrText v = false) :
    toBytes v = .error ("Unexpected type " ++ typeString v ++ "!") := by
  cases v <;> simp_all [toBytes, isBytesOrText, Value.typeOf, Value.IsValid]

theorem stringOfBytes_bytesOfString (s : String) : stringOfBytes (bytesOfString s) = s := by
  simp [stringOfBytes, bytesOfString, List.map_map, Function.comp_def]

theorem mapIndex_eq_some_iff (k : Key) (v : Value) :
    ∀ b : List (Key × Value), (mapKeys b).Nodup → (mapIndex k b = some v ↔ (k, v) ∈ b)
  | [], _ => by simp [mapIndex]
  | (k', w) :: b, hb => by
    simp only [mapKeys, List.map_cons, List.nodup_cons] at hb
    have ih := mapIndex_eq_some_iff k v b hb.2
    by_cases hk : k' = k
    · subst hk
      have hnot : (k', v) ∉ b := fun hm => hb.1 (List.mem_map.2 ⟨(k', v), hm, rfl⟩)
      simp [mapIndex, hnot]
      exact eq_comm
    · have hk' : ¬ k = k' := fun h => hk h.symm
      simp [mapIndex, hk, hk', ih]

theorem mapIndex_perm (k : Key) (b b' : List (Key × Value)) (hp : b.Perm b')
    (hb : (mapKeys b).Nodup) : mapIndex k b = mapIndex k b' := by
  have hb' : (mapKeys b').Nodup := (hp.map Prod.fst).nodup_iff.1 hb
  apply Option.ext
  intro v
  simp only [Option.mem_def]
  rw [mapIndex_eq_some_iff k v b hb, mapIndex_eq_some_iff k v b' hb', hp.mem_iff]

theorem jsonMembersIn_eq_all (b : List (Key × Value)) :
    ∀ a : List (Key × Value), jsonMembersIn a b = a.all (fun kv =>
      match mapIndex kv.1 b with
      | some w => jsonTreeEq kv.2 w
      | none => false)
  | [] => by simp [jsonMembersIn]
  | (k, v) :: a => by
    simp only [jsonMembersIn, jsonMembersIn_eq_all b a, List.all_cons]

theorem jsonTreeEq_map_perm (kt et ku eu : GoType) (a a' b b' : List (Key × Value))
    (ha : a.Perm a') (hb : b.Perm b') (hn : (mapKeys b).Nodup) :
    jsonTreeEq (.map kt et a) (.map ku eu b) = jsonTreeEq (.map kt et a') (.map ku eu b') := by
  have hidx : ∀ k, mapIndex k b = mapIndex k b' := fun k => mapIndex_perm k b b' hb hn
  have h1 : jsonMembersIn a b = jsonMembersIn a' b' := by
    rw [jsonMembersIn_eq_all, jsonMembersIn_eq_all]
    simp only [hidx]
    rw [Bool.eq_iff_iff]
    simp only [List.all_eq_true]
    exact ⟨fun h x hx => h x (ha.mem_iff.2 hx), fun h x hx => h x (ha.mem_iff.1 hx)⟩
  have h2 : ((mapKeys b).all fun k => (mapKeys a).contains k) =
      ((mapKeys b').all fun k => (mapKeys a').contains k) := by
    rw [Bool.eq_iff_iff, all_contains_iff_subset, all_contains_iff_subset]
    have hka : (mapKeys a).Perm (mapKeys a') := ha.map Prod.fst
    have hkb : (mapKeys b).Perm (mapKeys b') := hb.map Prod.fst
    exact ⟨fun h x hx => hka.subset (h (hkb.symm.subset hx)),
      fun h x hx => hka.symm.subset (h (hkb.subset hx))⟩
  simp only [jsonTreeEq, h1, h2]

theorem JSONEq_messages_differ (body err : String) :
    "JSONEq: response body isn't a valid JSON:\n" ++ body ≠
      "JSONEq: argument isn't a valid JSON " ++ err := by
  intro h
  have h' := congrArg (fun s => s.data.take 9) h
  simp [String.data_append, List.take] at h'

theorem isNil_eq_nilLike_valid (v : Value) : isNil v = (nilLike v && v.IsValid) := by
  cases v <;> rfl

theorem nilMarker_eq (v : Value) : (if isNil v then "*nil*" else "") = nilMarker v := by
  simp [nilMarker, isNil_eq_nilLike_valid]

theorem Eqf_failed (ass : Assertion) (got expected : Value) (msg : String)
    (h : failed (ass.Eqf got expected msg) = true) :
    ass.Eqf got expected msg = .error ("[" ++ ass.label ++ "] " ++ msg) := by
  rw [failed_Eqf] at h
  simp only [Bool.not_eq_true'] at h
  simp [Assertion.Eqf, h, Assertion.fail, bind, Except.bind]

/-! ## The claims -/

/-- C1. When both operands are nil-like (the literal nil, a nil pointer, a
nil slice or a nil map, in any combination and of any declared types), the
comparator `deepEq` returns true and `Eq(got, expected)` reports no failure. -/
theorem deepEq_nilLike_true (fmt : Fmt) (ass : Assertion) (got expected : Value)
    (hg : nilLike got = true) (he : nilLike expected = true) :
    Assertion.deepEq got expected = true ∧ ass.Eq fmt got expected = .ok ass := by
  refine ⟨deepEq_nilLike got expected hg he, ?_⟩
  unfold Assertion.Eq
  exact (Eqf_ok_iff ass _ _ _).2 (deepEq_nilLike got expected hg he)

/-- Witness of C1: a nil `*[]rune` against a nil `[]rune`. -/
theorem deepEq_nilLike_true_witness :
    nilLike (.nilPtr (.slice .int32)) = true ∧ nilLike (.nilSlice .int32) = true ∧
    (Assertion.deepEq (.nilPtr (.slice .int32)) (.nilSlice .int32) = true ∧
      New.Eq sampleFmt (.nilPtr (.slice .int32)) (.nilSlice .int32) = .ok New) :=
  ⟨by decide, by decide,
    deepEq_nilLike_true sampleFmt New (.nilPtr (.slice .int32)) (.nilSlice .int32)
      (by decide) (by decide)⟩

/-- C2. For an allocated container `e` of length 0 (an initialized slice or
map) and a nil-like value `n` (an uninitialized container of the same type or
of any other, a nil pointer, or the literal nil), `deepEq(e, n)` and
`deepEq(n, e)` are both false, and `Eq` fails in both argument orders. -/
theorem deepEq_allocatedEmpty_nilLike (fmt : Fmt) (ass : Assertion) (e n : Value)
    (he : allocatedEmpty e = true) (hn : nilLike n = true) :
    Assertion.deepEq e n = false ∧ Assertion.deepEq n e = false ∧
      failed (ass.Eq fmt e n) = true ∧ failed (ass.Eq fmt n e) = true := by
  have h1 := deepEq_allocatedEmpty_left e n he hn
  have h2 := deepEq_allocatedEmpty_right e n he hn
  refine ⟨h1, h2, ?_, ?_⟩ <;> simp [Assertion.Eq, failed_Eqf, h1, h2]

/-- Witness of C2: `[]rune{}` against the nil `[]rune`. -/
theorem deepEq_allocatedEmpty_nilLike_witness :
    allocatedEmpty (.slice .int32 []) = true ∧ nilLike (.nilSlice .int32) = true ∧
    (Assertion.deepEq (.slice .int32 []) (.nilSlice .int32) = false ∧
      Assertion.deepEq (.nilSlice .int32) (.slice .int32 []) = false ∧
      failed (New.Eq sampleFmt (.slice .int32 []) (.nilSlice .int32)) = true ∧
      failed (New.Eq sampleFmt (.nilSlice .int32) (.slice .int32 [])) = true) :=
  ⟨by decide, by decide,
    deepEq_allocatedEmpty_nilLike sampleFmt New (.slice .int32 []) (.nilSlice .int32)
      (by decide) (by decide)⟩

/-- C3. The comparator is symmetric: `deepEq(a, b) = deepEq(b, a)` for every
pair of values (the literal nil, typed nil references and concrete values on
either side), given that the structural equality `reflect.DeepEqual` answers
the same for the pair in both orders. -/
theorem deepEq_symmetric (a b : Value) (h : DeepEqual a b = DeepEqual b a) :
    Assertion.deepEq a b = Assertion.deepEq b a := by
  unfold Assertion.deepEq
  cases ha : a.IsValid <;> cases hb : b.IsValid <;> simp [h, Bool.and_comm]

/-- Witness of C3: a map against a nil pointer. -/
theorem deepEq_symmetric_witness :
    DeepEqual (.map .string .string [(.str "foo", .string "22")]) (.nilPtr .int) =
      DeepEqual (.nilPtr .int) (.map .string .string [(.str "foo", .string "22")]) ∧
    Assertion.deepEq (.map .string .string [(.str "foo", .string "22")]) (.nilPtr .int) =
      Assertion.deepEq (.nilPtr .int) (.map .string .string [(.str "foo", .string "22")]) :=
  ⟨by decide,
    deepEq_symmetric (.map .string .string [(.str "foo", .string "22")]) (.nilPtr .int)
      (by decide)⟩

/-- C4. `NotEq` is the exact negation of `Eq`: both decide by the comparator
`deepEq`, `NotEq(got, expected)` reports a failure if and only if
`Eq(got, expected)` reports none, and there is no type coercion:
`NotEq(22, 22)` fails, `NotEq(22, "22")` passes, `Eq(22, "22")` fails. -/
theorem NotEq_negates_Eq (fmt : Fmt) (ass : Assertion) (got expected : Value) :
    (failed (ass.NotEq fmt got expected) = Assertion.deepEq got expected ∧
      failed (ass.Eq fmt got expected) = !Assertion.deepEq got expected) ∧
    (failed (ass.NotEq fmt got expected) = true ↔
      failed (ass.Eq fmt got expected) = false) ∧
    failed (ass.NotEq fmt (.int 22) (.int 22)) = true ∧
    failed (ass.NotEq fmt (.int 22) (.string "22")) = false ∧
    failed (ass.Eq fmt (.int 22) (.string "22")) = true := by
  simp only [Assertion.NotEq, Assertion.Eq, failed_NotEqf, failed_Eqf]
  refine ⟨⟨trivial, trivial⟩, by simp, by decide, by decide, by decide⟩

/-- C6. When the response body and the text argument both parse as JSON,
`JSONEq` passes if and only if the two parsed value trees are structurally
equal (`jsonTreeEq`), and it fails if and only if they are not. In that
equality a JSON number is never equal to a JSON string, the members of an
object can be put in any order on either side without changing the answer,
and arrays are compared element by element in their order. -/
theorem JSONEq_iff_jsonTreeEq (json : JSONCodec) (resp : Response) (arg : String)
    (r e : Value)
    (hr : json.Unmarshal resp.Body = .ok r) (he : json.Unmarshal arg = .ok e)
    (wr : isJSONTree r = true) (we : isJSONTree e = true) :
    (resp.JSONEq json (.string arg) = .ok resp ↔ jsonTreeEq r e = true) ∧
    (failed (resp.JSONEq json (.string arg)) = true ↔ jsonTreeEq r e = false) ∧
    (∀ (x : Nat) (s : String), jsonTreeEq (.float64 x) (.string s) = false ∧
      jsonTreeEq (.string s) (.float64 x) = false) ∧
    (∀ a a' b b' : List (Key × Value), a.Perm a' → b.Perm b' → (mapKeys b).Nodup →
      jsonTreeEq (.map .string .iface a) (.map .string .iface b) =
        jsonTreeEq (.map .string .iface a') (.map .string .iface b')) ∧
    (∀ (x y : Value) (xs ys : List Value),
      jsonTreeEq (.slice .iface (x :: xs)) (.slice .iface (y :: ys)) =
        (jsonTreeEq x y && jsonTreeEq (.slice .iface xs) (.slice .iface ys))) := by
  have h := deepEq_eq_jsonTreeEq r e wr we
  refine ⟨?_, ?_, fun x s => ⟨by simp [jsonTreeEq], by simp [jsonTreeEq]⟩,
    fun a a' b b' ha hb hn => jsonTreeEq_map_perm _ _ _ _ a a' b b' ha hb hn,
    fun x y xs ys => by simp [jsonTreeEq, jsonArrayEq]⟩
  · cases hj : jsonTreeEq r e <;>
      simp [Response.JSONEq, hr, he, Assertion.Eqf, Assertion.fail, NewLabel, h, hj, bind,
        Except.bind, pure, Except.pure]
  · cases hj : jsonTreeEq r e <;>
      simp [Response.JSONEq, hr, he, Assertion.Eqf, Assertion.fail, NewLabel, h, hj, bind,
        Except.bind, pure, Except.pure, failed]

/-- Witness of C6: the body `{"foo":  "ok", "bar": "ok"}` against the text
`{"bar":"ok","foo": "ok"}`: the two trees are equal and `JSONEq` passes. On
the same decoder the body `22` against the text `"22"` fails, and the body
against the text `{"foo": "ok"}`, which lacks a key, fails. -/
theorem JSONEq_iff_jsonTreeEq_witness :
    jsonTreeEq (.map .string .iface [(.str "foo", .string "ok"), (.str "bar", .string "ok")])
      (.map .string .iface [(.str "bar", .string "ok"), (.str "foo", .string "ok")]) = true ∧
    ((⟨200, "\x7b\"foo\":  \"ok\", \"bar\": \"ok\"\x7d", [], []⟩ : Response).JSONEq fragmentCodec
        (.string "\x7b\"bar\":\"ok\",\"foo\": \"ok\"\x7d") =
        .ok ⟨200, "\x7b\"foo\":  \"ok\", \"bar\": \"ok\"\x7d", [], []⟩ ↔
      jsonTreeEq (.map .string .iface [(.str "foo", .string "ok"), (.str "bar", .string "ok")])
        (.map .string .iface [(.str "bar", .string "ok"), (.str "foo", .string "ok")]) = true) ∧
    failed ((⟨200, "22", [], []⟩ : Response).JSONEq fragmentCodec (.string "\"22\"")) = true ∧
    failed ((⟨200, "\x7b\"foo\":  \"ok\", \"bar\": \"ok\"\x7d", [], []⟩ : Response).JSONEq
      fragmentCodec (.string "\x7b\"foo\": \"ok\"\x7d")) = true :=
  ⟨by decide,
    (JSONEq_iff_jsonTreeEq fragmentCodec ⟨200, "\x7b\"foo\":  \"ok\", \"bar\": \"ok\"\x7d", [], []⟩
      "\x7b\"bar\":\"ok\",\"foo\": \"ok\"\x7d"
      (.map .string .iface [(.str "foo", .string "ok"), (.str "bar", .string "ok")])
      (.map .string .iface [(.str "bar", .string "ok"), (.str "foo", .string "ok")])
      (by rfl) (by rfl) (by decide) (by decide)).1,
    by decide, by decide⟩

/-- Counterexample to C7 as stated: the literal nil is neither a byte
sequence nor text, and `BodyEq(nil)` on a response with an empty body
reports no failure. -/
theorem BodyEq_nil_accepted :
    isBytesOrText .nil = false ∧
    (⟨200, "", [], []⟩ : Response).BodyEq sampleFmt .nil = .ok ⟨200, "", [], []⟩ := by
  decide

/-- C7, amended. Every value other than the literal nil whose type is neither
`[]byte` nor `string` is a usage error: `BodyEq` fails with the message
"Unexpected type T!" that names its runtime type `T`. A string and a
`[]byte` are accepted and compared with the body as text; the literal nil is
accepted as well and compared as the empty text. -/
theorem BodyEq_unexpected_type (fmt : Fmt) (resp : Response) (v : Value)
    (hv : v.IsValid = true) (ht : isBytesOrText v = false) :
    resp.BodyEq fmt v = .error ("Unexpected type " ++ typeString v ++ "!") ∧
    (∀ s : String, resp.BodyEq fmt (.string s) =
      ((NewLabel "BodyEq").Eq fmt (.string resp.Body) (.string s)).map (fun _ => resp)) ∧
    (∀ items : List Value, resp.BodyEq fmt (.slice .uint8 items) =
      ((NewLabel "BodyEq").Eq fmt (.string resp.Body)
        (.string (stringOfBytes (items.map byteOf)))).map (fun _ => resp)) ∧
    resp.BodyEq fmt (.nilSlice .uint8) =
      ((NewLabel "BodyEq").Eq fmt (.string resp.Body) (.string "")).map (fun _ => resp) ∧
    resp.BodyEq fmt .nil =
      ((NewLabel "BodyEq").Eq fmt (.string resp.Body) (.string "")).map (fun _ => resp) := by
  refine ⟨?_, ?_, ?_, ?_, ?_⟩
  · rw [BodyEq_eq, toBytes_unexpected v hv ht]
    rfl
  · intro s
    rw [BodyEq_eq]
    simp [toBytes, stringOfBytes_bytesOfString, bind, Except.bind, Except.map]
    cases (NewLabel "BodyEq").Eq fmt (.string resp.Body) (.string s) <;> rfl
  · intro items
    rw [BodyEq_eq]
    simp [toBytes, bind, Except.bind, Except.map]
    cases (NewLabel "BodyEq").Eq fmt (.string resp.Body)
      (.string (stringOfBytes (items.map byteOf))) <;> rfl
  · rw [BodyEq_eq]
    simp [toBytes, bind, Except.bind, Except.map, stringOfBytes]
    cases (NewLabel "BodyEq").Eq fmt (.string resp.Body) (.string "") <;> rfl
  · rw [BodyEq_eq]
    simp [toBytes, bind, Except.bind, Except.map, stringOfBytes]
    cases (NewLabel "BodyEq").Eq fmt (.string resp.Body) (.string "") <;> rfl

/-- Witness of C7: `BodyEq(22)` on the body "OK" fails with
"Unexpected type int!". -/
theorem BodyEq_unexpected_type_witness :
    Value.IsValid (.int 22) = true ∧ isBytesOrText (.int 22) = false ∧
    (⟨200, "OK", [], []⟩ : Response).BodyEq sampleFmt (.int 22) =
      .error ("Unexpected type " ++ typeString (.int 22) ++ "!") ∧
    "Unexpected type " ++ typeString (.int 22) ++ "!" = "Unexpected type int!" :=
  ⟨by decide, by decide,
    (BodyEq_unexpected_type sampleFmt ⟨200, "OK", [], []⟩ (.int 22) (by decide) (by decide)).1,
    by decide⟩

/-- C8, the code at the failing input: with the Jar set to nil, the request
built by `NewRequest` has no header at all, so the default header foo is not
on it; with a jar, the same call puts it there. -/
theorem NewRequest_nil_jar_drops_DefaultHeaders :
    ((⟨makeBodyResp "", [("foo", "FOO")], none⟩ : Client).NewRequest plainTargets 0 "GET" "/"
      "").map (fun r => r.Header) = some [] ∧
    ((⟨makeBodyResp "", [("foo", "FOO")], none⟩ : Client).NewRequest plainTargets 0 "GET" "/"
      "").map (fun r => r.Header.Get "foo") = some "" ∧
    ((⟨makeBodyResp "", [("foo", "FOO")], some []⟩ : Client).NewRequest plainTargets 0 "GET" "/"
      "").map (fun r => r.Header.Get "foo") = some "FOO" := by
  decide

/-- C9. With the Jar set to nil cookie handling is a no-op: `Do` returns the
response of the handler and leaves the client as it is (no cookie is
stored); `NewRequest` returns the bare request of `httptest.NewRequest`,
which has no header and so no cookie; a sequence of calls `Do(NewRequest(..))`
goes through whenever `httptest.NewRequest` accepts every target, and then
every request reaches the handler without a cookie and the client stays as it
is. -/
theorem nil_jar_is_inert (net : NetHTTP) (cl : Client) (h : cl.Jar = none) (calls : List Call) :
    (∀ (now : Nat) (req : Request), cl.Do now req = (cl.handler req, cl)) ∧
    (∀ (now : Nat) (method target body : String),
      cl.NewRequest net now method target body = httptestNewRequest net method target body ∧
      ∀ req, cl.NewRequest net now method target body = some req →
        req.Header = [] ∧ req.Cookies = []) ∧
    ((∀ c ∈ calls, (httptestNewRequest net c.method c.target c.body).isSome = true) →
      (cl.session net calls).isSome = true) ∧
    (∀ (log : List (Request × Response)) (cl2 : Client), cl.session net calls = some (log, cl2) →
      (∀ rr ∈ log, rr.1.Header = [] ∧ rr.1.Cookies = [] ∧ rr.2 = cl.handler rr.1) ∧ cl2 = cl) := by
  have hdo : ∀ (now : Nat) (req : Request), cl.Do now req = (cl.handler req, cl) := by
    intro now req
    simp [Client.Do, h]
  have hnew : ∀ (now : Nat) (method target body : String),
      cl.NewRequest net now method target body = httptestNewRequest net method target body := by
    intro now method target body
    unfold Client.NewRequest
    cases httptestNewRequest net method target body <;> simp [h]
  have hbare : ∀ (now : Nat) (method target body : String) (req : Request),
      cl.NewRequest net now method target body = some req →
        req.Header = [] ∧ req.Cookies = [] := by
    intro now method target body req hr
    rw [hnew] at hr
    have hh := httptestNewRequest_header net method target body req hr
    refine ⟨hh, ?_⟩
    simp only [Request.Cookies, hh]
    decide
  refine ⟨hdo, fun now method target body => ⟨hnew now method target body,
    hbare now method target body⟩, ?_, ?_⟩
  · induction calls with
    | nil => intro _; rfl
    | cons c cs ih =>
      intro hall
      simp only [List.mem_cons, forall_eq_or_imp] at hall
      have hs := ih hall.2
      cases hr : httptestNewRequest net c.method c.target c.body with
      | none => simp [hr] at hall
      | some req =>
        cases hsess : cl.session net cs with
        | none => simp [hsess] at hs
        | some rest => simp [Client.session, hnew, hr, hdo, hsess]
  · induction calls with
    | nil =>
      intro log cl2 hs
      simp only [session_nil, Option.some.injEq, Prod.mk.injEq] at hs
      rw [← hs.1, ← hs.2]
      simp
    | cons c cs ih =>
      intro log cl2 hs
      obtain ⟨req, rest, hreq, hrest, hlog⟩ := session_cons net cl c cs log cl2 hs
      rw [hdo] at hrest hlog
      obtain ⟨h1, h2⟩ := ih rest cl2 hrest
      subst hlog
      refine ⟨?_, h2⟩
      have hb := hbare _ _ _ _ req hreq
      intro rr hrr
      rcases List.mem_cons.1 hrr with heq | hmem
      · subst heq
        exact ⟨hb.1, hb.2, rfl⟩
      · exact h1 rr hmem

/-- Witness of C9: the test `Test_EmptyJar`: GET /set, then GET /get, with
the Jar set to nil; the two calls go through, the second request carries no
cookie and the answer is "empty". -/
theorem nil_jar_is_inert_witness :
    (({ Client.New (makeHandlerCookie "foo" fooBar) with Jar := none } : Client).session
        plainTargets [⟨1, "GET", "/set", ""⟩, ⟨2, "GET", "/get", ""⟩]).isSome = true ∧
    (∀ (log : List (Request × Response)) (cl2 : Client),
      ({ Client.New (makeHandlerCookie "foo" fooBar) with Jar := none } : Client).session
        plainTargets [⟨1, "GET", "/set", ""⟩, ⟨2, "GET", "/get", ""⟩] = some (log, cl2) →
      (∀ rr ∈ log, rr.1.Header = [] ∧ rr.1.Cookies = [] ∧
        rr.2 = makeHandlerCookie "foo" fooBar rr.1) ∧
      cl2 = { Client.New (makeHandlerCookie "foo" fooBar) with Jar := none }) ∧
    (({ Client.New (makeHandlerCookie "foo" fooBar) with Jar := none } : Client).session
        plainTargets [⟨1, "GET", "/set", ""⟩, ⟨2, "GET", "/get", ""⟩]).map
      (fun s => s.1.map (fun rr => rr.2.Body)) = some ["Stored", "empty"] :=
  ⟨(nil_jar_is_inert plainTargets { Client.New (makeHandlerCookie "foo" fooBar) with Jar := none }
      rfl [⟨1, "GET", "/set", ""⟩, ⟨2, "GET", "/get", ""⟩]).2.2.1 (by decide),
    (nil_jar_is_inert plainTargets { Client.New (makeHandlerCookie "foo" fooBar) with Jar := none }
      rfl [⟨1, "GET", "/set", ""⟩, ⟨2, "GET", "/get", ""⟩]).2.2.2,
    by decide⟩

/-- C11. Malformed JSON is reported with a message that names the offending
side. When the response body fails to parse, `JSONEq` fails with "JSONEq:
response body isn't a valid JSON:" followed by the body, whatever the argument
is (text, map or struct, well-formed or not). When the body parses and a text
argument fails to parse, `JSONEq` fails with "JSONEq: argument isn't a valid
JSON" followed by the error. The two messages are never the same. -/
theorem JSONEq_malformed (json : JSONCodec) (resp : Response) :
    (∀ (expected : Value) (err : String), json.Unmarshal resp.Body = .error err →
      resp.JSONEq json expected =
        .error ("JSONEq: response body isn't a valid JSON:\n" ++ resp.Body)) ∧
    (∀ (arg : String) (r : Value) (err : String), json.Unmarshal resp.Body = .ok r →
      json.Unmarshal arg = .error err →
      resp.JSONEq json (.string arg) =
        .error ("JSONEq: argument isn't a valid JSON " ++ err)) ∧
    (∀ body err : String, "JSONEq: response body isn't a valid JSON:\n" ++ body ≠
      "JSONEq: argument isn't a valid JSON " ++ err) := by
  refine ⟨?_, ?_, JSONEq_messages_differ⟩
  · intro expected err hr
    simp [Response.JSONEq, hr, bind, Except.bind, throw, throwThe, MonadExceptOf.throw]
  · intro arg r err hr he
    simp [Response.JSONEq, hr, he, bind, Except.bind, pure, Except.pure, throw, throwThe,
      MonadExceptOf.throw]

/-- Witness of C11: the cases of `Test_JSONEq`. The body `{"foo":  "ok"` does
not parse: against the text `{"foo": "ok"}` and against the map
`map[string]string{"foo": "NOT"}` the message is the one of the response
body. The body `{"foo":  "ok"}` parses and the text `{"foo": "ok"` does not:
the message is the one of the argument. -/
theorem JSONEq_malformed_witness :
    (⟨200, "\x7b\"foo\":  \"ok\"", [], []⟩ : Response).JSONEq fragmentCodec
        (.string "\x7b\"foo\": \"ok\"\x7d") =
      .error ("JSONEq: response body isn't a valid JSON:\n" ++ "\x7b\"foo\":  \"ok\"") ∧
    (⟨200, "\x7b\"foo\":  \"ok\"", [], []⟩ : Response).JSONEq fragmentCodec
        (.map .string .string [(.str "foo", .string "NOT")]) =
      .error ("JSONEq: response body isn't a valid JSON:\n" ++ "\x7b\"foo\":  \"ok\"") ∧
    (⟨200, "\x7b\"foo\":  \"ok\"\x7d", [], []⟩ : Response).JSONEq fragmentCodec
        (.string "\x7b\"foo\": \"ok\"") =
      .error ("JSONEq: argument isn't a valid JSON " ++ "unexpected end of JSON input") :=
  ⟨(JSONEq_malformed fragmentCodec ⟨200, "\x7b\"foo\":  \"ok\"", [], []⟩).1
      (.string "\x7b\"foo\": \"ok\"\x7d") "unexpected end of JSON input" (by rfl),
    (JSONEq_malformed fragmentCodec ⟨200, "\x7b\"foo\":  \"ok\"", [], []⟩).1
      (.map .string .string [(.str "foo", .string "NOT")]) "unexpected end of JSON input" (by rfl),
    (JSONEq_malformed fragmentCodec ⟨200, "\x7b\"foo\":  \"ok\"\x7d", [], []⟩).2.1
      "\x7b\"foo\": \"ok\"" (.map .string .iface [(.str "foo", .string "ok")])
      "unexpected end of JSON input" (by rfl) (by rfl)⟩

/-- Counterexample to C12 as stated: the literal nil is nil-like, yet when
`Eq(nil, "nil")` fails its default message renders the literal nil without
the marker: the message does not contain `*nil*` at all. -/
theorem Eq_literal_nil_unmarked :
    nilLike .nil = true ∧
    New.Eq sampleFmt .nil (.string "nil") =
      .error "[Assertion] got: <nil>(<nil>), expected: string(nil)" ∧
    stringsContains "[Assertion] got: <nil>(<nil>), expected: string(nil)" "*nil*" = false := by
  decide

/-- C12, amended. Whenever `Eq` fails with its default message, the message is
"[label] got: T(mV), expected: T'(m'V')" where T and V are the type and the
value of an operand and m is its marker: `*nil*` in front of the value of
every nil pointer, nil slice and nil map, and nothing for every other
operand: no operand that is not nil-like gets the marker, and the literal nil
(whose type prints as `<nil>`) gets none either. -/
theorem Eq_default_message (fmt : Fmt) (ass : Assertion) (got expected : Value)
    (h : failed (ass.Eq fmt got expected) = true) :
    ass.Eq fmt got expected =
      .error ("[" ++ ass.label ++ "] " ++
        ("got: " ++ typeString got ++ "(" ++ nilMarker got ++ fmt.v got ++ "), expected: "
          ++ typeString expected ++ "(" ++ nilMarker expected ++ fmt.v expected ++ ")")) ∧
    (∀ v : Value, nilLike v = true → v.IsValid = true → nilMarker v = "*nil*") ∧
    (∀ v : Value, nilLike v = false → nilMarker v = "") ∧
    nilMarker .nil = "" := by
  refine ⟨?_, ?_, ?_, by decide⟩
  · unfold Assertion.Eq at h ⊢
    simp only [nilMarker_eq] at h ⊢
    exact Eqf_failed ass got expected _ h
  · intro v h1 h2
    simp [nilMarker, h1, h2]
  · intro v h1
    simp [nilMarker, h1]

/-- Witness of C12: `Eq([]rune{}, nilArr)` fails and its message marks the
nil slice, and only it; the message contains `*nil*`. -/
theorem Eq_default_message_witness :
    failed (New.Eq sampleFmt (.slice .int32 []) (.nilSlice .int32)) = true ∧
    New.Eq sampleFmt (.slice .int32 []) (.nilSlice .int32) =
      .error ("[" ++ New.label ++ "] " ++
        ("got: " ++ typeString (.slice .int32 []) ++ "(" ++ nilMarker (.slice .int32 []) ++
          sampleFmt.v (.slice .int32 []) ++ "), expected: " ++ typeString (.nilSlice .int32) ++
          "(" ++ nilMarker (.nilSlice .int32) ++ sampleFmt.v (.nilSlice .int32) ++ ")")) ∧
    "[" ++ New.label ++ "] " ++
        ("got: " ++ typeString (.slice .int32 []) ++ "(" ++ nilMarker (.slice .int32 []) ++
          sampleFmt.v (.slice .int32 []) ++ "), expected: " ++ typeString (.nilSlice .int32) ++
          "(" ++ nilMarker (.nilSlice .int32) ++ sampleFmt.v (.nilSlice .int32) ++ ")") =
      "[Assertion] got: []int32([]), expected: []int32(*nil*[])" ∧
    stringsContains "[Assertion] got: []int32([]), expected: []int32(*nil*[])" "*nil*" = true :=
  ⟨by decide,
    (Eq_default_message sampleFmt New (.slice .int32 []) (.nilSlice .int32) (by decide)).1,
    by decide, by decide⟩

end Ftest
